import Mathlib

/-!
Shallow embedding of the libeverdrive protocol layer (src/lib.rs, src/unf.rs).

Machine integers (`u8`, `u32`) are modelled as `Nat` with explicit `% 256` /
`% 2 ^ 32` truncation at the points where the Rust code casts or where
overflow can occur.  Byte buffers are `List Nat`.  Fallible Rust functions
(`std::io::Result`) become `Except EdErr`.  The serial port is modelled as a
`Port` state: an input byte stream and the ordered list of chunks written so
far; every session operation returns its result together with the updated
port, mirroring the fact that the Rust `Everdrive` value survives an error
return.
-/

set_option maxRecDepth 16000

namespace Everdrive

/-- Error taxonomy of the layer: `InvalidInput` (sizes / lengths),
`InvalidData` (protocol framing), and opaque I/O failures. -/
inductive EdErr where
  | invalidArgument : EdErr
  | protocolError : EdErr
  | ioError : EdErr
  deriving DecidableEq, Repr

/-- `u32::from_be_bytes` on four byte values. -/
def beWord (b0 b1 b2 b3 : Nat) : Nat :=
  ((b0 * 256 + b1) * 256 + b2) * 256 + b3

/-- `u32::to_be_bytes`: the four big-endian bytes of a 32-bit value. -/
def be32 (w : Nat) : List Nat :=
  [w / 16777216 % 256, w / 65536 % 256, w / 256 % 256, w % 256]

/-- `ROM_BASE_ADDR` from src/lib.rs. -/
def ROM_BASE_ADDR : Nat := 0x10000000

/-- `ROM_BASE_ADDR_EMU` from src/lib.rs. -/
def ROM_BASE_ADDR_EMU : Nat := 0x10200000

/-- `enum EdCommand` from src/lib.rs. -/
inductive EdCommand where
  | test : EdCommand
  | ramRead (addr size : Nat) : EdCommand
  | romRead (addr size : Nat) : EdCommand
  | romWrite (addr size : Nat) : EdCommand
  | romFill (addr size arg : Nat) : EdCommand
  | fpgaInit (size : Nat) : EdCommand
  | appStart (savePath : Bool) : EdCommand
  deriving DecidableEq, Repr

namespace EdCommand

/-- The command-letter byte of the `(cmd, addr, size, arg)` tuple computed by
`EdCommand::to_bytes`. -/
def letter : EdCommand → Nat
  | .test => 116         -- b't'
  | .ramRead _ _ => 114  -- b'r'
  | .romRead _ _ => 82   -- b'R'
  | .romWrite _ _ => 87  -- b'W'
  | .romFill _ _ _ => 99 -- b'c'
  | .fpgaInit _ => 102   -- b'f'
  | .appStart _ => 115   -- b's'

/-- The `addr` component of the tuple computed by `EdCommand::to_bytes`. -/
def addrField : EdCommand → Nat
  | .test => 0
  | .ramRead a _ => a
  | .romRead a _ => a
  | .romWrite a _ => a
  | .romFill a _ _ => a
  | .fpgaInit _ => 0
  | .appStart _ => 0

/-- The `size` component of the tuple computed by `EdCommand::to_bytes`. -/
def sizeField : EdCommand → Nat
  | .test => 0
  | .ramRead _ s => s
  | .romRead _ s => s
  | .romWrite _ s => s
  | .romFill _ s _ => s
  | .fpgaInit s => s
  | .appStart _ => 0

/-- The `arg` component of the tuple computed by `EdCommand::to_bytes`
(`*save_path as u32` is `1` for `true`, `0` for `false`). -/
def argField : EdCommand → Nat
  | .test => 0
  | .ramRead _ _ => 0
  | .romRead _ _ => 0
  | .romWrite _ _ => 0
  | .romFill _ _ v => v
  | .fpgaInit _ => 0
  | .appStart b => if b then 1 else 0

/-- `EdCommand::to_bytes` from src/lib.rs: rejects a `size` that is not a
multiple of 512, otherwise serializes `"cmd"`, the command letter, and the
big-endian `addr`, `size / 512` and `arg` words into 16 bytes. -/
def toBytes (c : EdCommand) : Except EdErr (List Nat) :=
  if c.sizeField % 512 ≠ 0 then
    .error .invalidArgument
  else
    .ok ([99, 109, 100, c.letter] ++ be32 c.addrField ++
      be32 (c.sizeField / 512) ++ be32 c.argField)

end EdCommand

/-- The serial-port state: the remaining input byte stream and the chunks
written so far (in order). -/
structure Port where
  input : List Nat
  output : List (List Nat)
  deriving DecidableEq, Repr

/-- `Everdrive::write` (`self.port.write_all(buf)`): appends one chunk to the
output trace. -/
def writeAll (buf : List Nat) (p : Port) : Port :=
  { p with output := p.output ++ [buf] }

/-- Modelled from the spec: the transport collaborator's blocking
`read_exact(n) -> bytes` (spec §6); its definition on `Everdrive` is not under
src/.  Consumes exactly `n` bytes from the input stream, failing with an I/O
error when fewer are available. -/
def readExact (n : Nat) (p : Port) : Except EdErr (List Nat) × Port :=
  if n ≤ p.input.length then
    (.ok (p.input.take n), { p with input := p.input.drop n })
  else
    (.error .ioError, p)

/-- Modelled from the spec: `read_word_be`, reading a 4-byte big-endian word
from the stream (spec §4.4 step 2); its definition on `Everdrive` is not under
src/. -/
def readWordBe (p : Port) : Except EdErr Nat × Port :=
  match readExact 4 p with
  | (.ok bs, p') => (.ok (beWord (bs.getD 0 0) (bs.getD 1 0) (bs.getD 2 0) (bs.getD 3 0)), p')
  | (.error e, p') => (.error e, p')

/-- `Everdrive::tx`: encode the command, then write the 16 bytes; an encoding
failure writes nothing. -/
def tx (c : EdCommand) (p : Port) : Except EdErr Unit × Port :=
  match c.toBytes with
  | .ok b => (.ok (), writeAll b p)
  | .error e => (.error e, p)

/-- `Everdrive::rx`: read exactly 16 bytes; the first four must be
`"cmd"` followed by the expected response letter. -/
def rx (resp : Nat) (p : Port) : Except EdErr Unit × Port :=
  match readExact 16 p with
  | (.ok buf, p') =>
    if buf.take 4 = [99, 109, 100, resp] then (.ok (), p')
    else (.error .protocolError, p')
  | (.error e, p') => (.error e, p')

/-- `Everdrive::rom_fill`. -/
def romFillOp (addr size val : Nat) (p : Port) : Except EdErr Unit × Port :=
  tx (.romFill addr size val) p

/-- `Everdrive::rom_read` with a buffer of length `n`: transmit `RomRead`,
then read exactly `n` bytes. -/
def romReadOp (addr n : Nat) (p : Port) : Except EdErr (List Nat) × Port :=
  match tx (.romRead addr n) p with
  | (.ok _, p') => readExact n p'
  | (.error e, p') => (.error e, p')

/-- `Everdrive::ram_read` with a buffer of length `n`. -/
def ramReadOp (addr n : Nat) (p : Port) : Except EdErr (List Nat) × Port :=
  match tx (.ramRead addr n) p with
  | (.ok _, p') => readExact n p'
  | (.error e, p') => (.error e, p')

/-- `Everdrive::rom_write`: transmit `RomWrite(addr, len(data))`, then write
`data`. -/
def romWriteOp (addr : Nat) (data : List Nat) (p : Port) : Except EdErr Unit × Port :=
  match tx (.romWrite addr data.length) p with
  | (.ok _, p') => (.ok (), writeAll data p')
  | (.error e, p') => (.error e, p')

/-- `Everdrive::fpga_init`: transmit `FpgaInit(size)`, write `data`, then
await the `'r'` ack. -/
def fpgaInitOp (size : Nat) (data : List Nat) (p : Port) : Except EdErr Unit × Port :=
  match tx (.fpgaInit size) p with
  | (.ok _, p') => rx 114 (writeAll data p')
  | (.error e, p') => (.error e, p')

/-- `copy_from_slice` into the sub-range starting at `i`: replaces
`l[i .. i + src.length)` by `src`. -/
def writeSlice (l : List Nat) (i : Nat) (src : List Nat) : List Nat :=
  l.take i ++ src ++ l.drop (i + src.length)

/-- `Everdrive::app_start` (filename given as its byte string): a name of 256
or more bytes is rejected before anything is written; otherwise the name is
zero-padded to 256 bytes, `AppStart(has_save_name)` is transmitted, and the
padded buffer follows when a name was given. -/
def appStartOp (fileName : Option (List Nat)) (p : Port) : Except EdErr Unit × Port :=
  match fileName with
  | some nm =>
    if nm.length ≥ 256 then
      (.error .invalidArgument, p)
    else
      let buf := writeSlice (List.replicate 256 0) 0 nm
      match tx (.appStart true) p with
      | (.ok _, p') => (.ok (), writeAll buf p')
      | (.error e, p') => (.error e, p')
  | none =>
    match tx (.appStart false) p with
    | (.ok _, p') => (.ok (), p')
    | (.error e, p') => (.error e, p')

/-- `enum EdSaveType` from src/lib.rs (`#[repr(u8)]` discriminants). -/
inductive EdSaveType where
  | eeprom4k | eeprom16k | sram | sram768k | flashRam | sram128k
  deriving DecidableEq, Repr

/-- The `u8` discriminant of an `EdSaveType` (`st as u8`). -/
def EdSaveType.toByte : EdSaveType → Nat
  | .eeprom4k => 0x10
  | .eeprom16k => 0x20
  | .sram => 0x30
  | .sram768k => 0x40
  | .flashRam => 0x50
  | .sram128k => 0x60

/-- `enum EdRtcRegionType` from src/lib.rs (`#[repr(u8)]` discriminants). -/
inductive EdRtcRegionType where
  | rtc | noRegion | all
  deriving DecidableEq, Repr

/-- The `u8` discriminant of an `EdRtcRegionType` (`val as u8`). -/
def EdRtcRegionType.toByte : EdRtcRegionType → Nat
  | .rtc => 0x01
  | .noRegion => 0x02
  | .all => 0x03

/-- The byte-swap loop of `load_rom` for signature `0x37804012`
(`for i in (0..len).step_by(2) { swap(i, i+1) }`): swaps each adjacent pair;
on an odd-length buffer the final `swap(len-1, len)` indexes out of bounds
and panics, modelled as `none`. -/
def swapPairs : List Nat → Option (List Nat)
  | [] => some []
  | [_] => none
  | a :: b :: rest => (swapPairs rest).map fun r => b :: a :: r

/-- The byte-swap loop of `load_rom` for signature `0x40123780`
(`for i in (0..len).step_by(4) { swap(i, i+3); swap(i+1, i+2) }`): reverses
each 4-byte word; when the length is not a multiple of 4 the last iteration
indexes out of bounds and panics, modelled as `none`. -/
def swapWords : List Nat → Option (List Nat)
  | [] => some []
  | a :: b :: c :: d :: rest => (swapWords rest).map fun r => d :: c :: b :: a :: r
  | _ => none

/-- The pure preparation phase of `Everdrive::load_rom` (src/lib.rs
430..454): read the big-endian signature from the first four bytes (panic,
i.e. `none`, when fewer than 4 bytes), apply the matching byte transform and
resolve the base address, then, when a save type is given, patch bytes 0x3C,
0x3D and 0x3F (`((st as u8) << 4) | region_type`, with `u8` truncation of the
shift; panics when the buffer has no byte 0x3F).  Returns the transformed,
patched buffer and the resolved base address. -/
def loadRomPrep (rom : List Nat) (baseAddress : Option Nat)
    (saveType : Option EdSaveType) (rtcRegionType : Option EdRtcRegionType) :
    Option (List Nat × Nat) :=
  match rom with
  | b0 :: b1 :: b2 :: b3 :: _ =>
    let hw := beWord b0 b1 b2 b3
    let base := baseAddress.getD ROM_BASE_ADDR
    let swapped : Option (List Nat × Nat) :=
      if hw = 0x80371240 then some (rom, base)
      else if hw = 0x37804012 then (swapPairs rom).map fun r => (r, base)
      else if hw = 0x40123780 then (swapWords rom).map fun r => (r, base)
      else some (rom, ROM_BASE_ADDR_EMU)
    match swapped with
    | none => none
    | some (rom2, b) =>
      match saveType with
      | none => some (rom2, b)
      | some st =>
        if 0x40 ≤ rom2.length then
          let regionType := (rtcRegionType.map EdRtcRegionType.toByte).getD 0
          let patched := (((rom2.set 0x3C 0x45).set 0x3D 0x44).set 0x3F
            (Nat.lor (st.toByte * 16 % 256) regionType))
          some (patched, b)
        else none
  | _ => none

/-- `b"EverDrive bootloader"` as bytes. -/
def edBootSig : List Nat :=
  [0x45, 0x76, 0x65, 0x72, 0x44, 0x72, 0x69, 0x76, 0x65, 0x20,
   0x62, 0x6F, 0x6F, 0x74, 0x6C, 0x6F, 0x61, 0x64, 0x65, 0x72]

/-- `Everdrive::is_ed_bootloader`: zips the 20-byte signature with the bytes
of `data` from offset 0x20 on and requires all paired bytes to agree (the zip
truncates to the shorter operand, exactly as the Rust iterator does). -/
def isEdBootloader (data : List Nat) : Bool :=
  (edBootSig.zip (data.drop 0x20)).all fun ab => ab.1 == ab.2

/-- `CRC_AREA_SIZE` from `load_rom_force`. -/
def CRC_AREA_SIZE : Nat := 0x101000

/-- `Everdrive::load_rom_force`: when the image is smaller than the CRC area,
first issue a `RomFill` over the whole area (value `0xFFFFFFFF` when
`is_ed_bootloader`, else 0), then transmit `RomWrite` and the data. -/
def loadRomForce (data : List Nat) (baseAddress : Nat) (p : Port) :
    Except EdErr Unit × Port :=
  let afterFill : Except EdErr Unit × Port :=
    if data.length < CRC_AREA_SIZE then
      romFillOp baseAddress CRC_AREA_SIZE (if isEdBootloader data then 0xFFFFFFFF else 0) p
    else
      (.ok (), p)
  match afterFill with
  | (.ok _, p') =>
    match tx (.romWrite baseAddress data.length) p' with
    | (.ok _, p'') => (.ok (), writeAll data p'')
    | (.error e, p'') => (.error e, p'')
  | (.error e, p') => (.error e, p')

/-! ## UNF framed-packet codec (src/unf.rs) -/

/-- `UNF_MAGIC` (`"DMA@"`). -/
def UNF_MAGIC : Nat := 0x444d4140

/-- `UNF_FOOTER` (`"CMPH"`). -/
def UNF_FOOTER : Nat := 0x434d5048

/-- `enum UnfDataType` from src/unf.rs. -/
inductive UnfDataType where
  | text | binary | header | screenshot | heartbeat | rdbPacket | unknown
  deriving DecidableEq, Repr

/-- `impl From<u8> for UnfDataType`: the closed codes 1..6, every other byte
mapped to `DataTypeUnknown`. -/
def UnfDataType.ofByte (b : Nat) : UnfDataType :=
  if b = 0x01 then .text
  else if b = 0x02 then .binary
  else if b = 0x03 then .header
  else if b = 0x04 then .screenshot
  else if b = 0x05 then .heartbeat
  else if b = 0x06 then .rdbPacket
  else .unknown

/-- `impl Into<u8> for UnfDataType`. -/
def UnfDataType.toByte : UnfDataType → Nat
  | .text => 0x01
  | .binary => 0x02
  | .header => 0x03
  | .screenshot => 0x04
  | .heartbeat => 0x05
  | .rdbPacket => 0x06
  | .unknown => 0xFF

/-- `struct UnfRecvPacket`. -/
structure UnfRecvPacket where
  datatype : UnfDataType
  data : List Nat
  deriving DecidableEq, Repr

/-- `UnfSendPacket::new(data_type, data_size)`: rejects a payload size above
0x00FFFFFF, otherwise allocates `data_size + 12 + (data_size & 1)` zero
bytes, writes the magic, type byte and 3-byte big-endian size at the front,
fills the single alignment byte (odd sizes only) with 0xFF, and writes the
footer at the end.  Returns the backing buffer. -/
def unfSendNew (dataType : UnfDataType) (dataSize : Nat) : Option (List Nat) :=
  if dataSize > 0x00FFFFFF then none
  else
    let alignBytes := dataSize % 2
    let data0 := List.replicate (dataSize + 12 + alignBytes) 0
    let data1 := writeSlice data0 0
      [UNF_MAGIC / 16777216 % 256, UNF_MAGIC / 65536 % 256,
       UNF_MAGIC / 256 % 256, UNF_MAGIC % 256,
       dataType.toByte, dataSize / 65536 % 256, dataSize / 256 % 256, dataSize % 256]
    let data2 := writeSlice data1 (dataSize + 8) (List.replicate alignBytes 0xFF)
    let data3 := writeSlice data2 (dataSize + 8 + alignBytes)
      [UNF_FOOTER / 16777216 % 256, UNF_FOOTER / 65536 % 256,
       UNF_FOOTER / 256 % 256, UNF_FOOTER % 256]
    some data3

/-- `UnfSendPacket::get_data` used for an in-place fill: writing the payload
`pl` into the mutable view `backing[8 .. 8 + data_size)` (here
`pl.length = data_size`). -/
def unfFillData (backing pl : List Nat) : List Nat :=
  writeSlice backing 8 pl

/-- `Everdrive::unf_rx` from src/unf.rs: read and check the magic word, read
the header word (low 24 bits payload size, high byte type code), convert the
type code (the Rust `try_into` resolves to the blanket `TryFrom` impl derived
from `From<u8>`, which is infallible: unknown codes become
`DataTypeUnknown`), read the payload, then read and check the footer. -/
def unfRx (p : Port) : Except EdErr UnfRecvPacket × Port :=
  match readWordBe p with
  | (.error e, p1) => (.error e, p1)
  | (.ok magic, p1) =>
    if magic ≠ UNF_MAGIC then (.error .protocolError, p1)
    else
      match readWordBe p1 with
      | (.error e, p2) => (.error e, p2)
      | (.ok header, p2) =>
        let dsize := header % 16777216
        let dtype := header / 16777216 % 256
        let datatype := UnfDataType.ofByte dtype
        match readExact dsize p2 with
        | (.error e, p3) => (.error e, p3)
        | (.ok data, p3) =>
          match readWordBe p3 with
          | (.error e, p4) => (.error e, p4)
          | (.ok cmp, p4) =>
            if cmp ≠ UNF_FOOTER then (.error .protocolError, p4)
            else (.ok ⟨datatype, data⟩, p4)

/-! ## Theorems -/

/-- C5: `EdCommand::to_bytes` fails with `InvalidArgument` exactly when the
command's size field is not a multiple of 512; for sizes that are multiples
of 512 it succeeds with a 16-byte buffer laid out as `"cmd"` + letter, the
big-endian address, the big-endian `size / 512`, and the big-endian argument
(RomFill's value, AppStart's boolean, 0 otherwise). -/
theorem C5_command_codec (c : EdCommand) :
    (¬ 512 ∣ c.sizeField → c.toBytes = .error .invalidArgument) ∧
    (512 ∣ c.sizeField →
      c.toBytes = .ok ([99, 109, 100, c.letter] ++ be32 c.addrField ++
        be32 (c.sizeField / 512) ++ be32 c.argField) ∧
      ∀ l, c.toBytes = .ok l → l.length = 16) := by
  rw [Nat.dvd_iff_mod_eq_zero]
  constructor
  · intro h
    simp [EdCommand.toBytes, h]
  · intro h
    refine ⟨by simp [EdCommand.toBytes, h], ?_⟩
    intro l hl
    simp [EdCommand.toBytes, h] at hl
    simp [← hl, be32]

/-- Witness for C5 at concrete commands: `RomWrite` with size 513 is
rejected; `RomWrite(0x10000000, 1024)` encodes to the expected 16 bytes. -/
theorem C5_command_codec_witness :
    EdCommand.toBytes (.romWrite 0x10000000 513) = .error .invalidArgument ∧
    EdCommand.toBytes (.romWrite 0x10000000 1024) =
      .ok [99, 109, 100, 87, 16, 0, 0, 0, 0, 0, 0, 2, 0, 0, 0, 0] := by
  refine ⟨(C5_command_codec (.romWrite 0x10000000 513)).1 (by decide), ?_⟩
  exact (((C5_command_codec (.romWrite 0x10000000 1024)).2 (by decide)).1).trans (by rfl)

/-- C10: when the size (or buffer length) is not a multiple of 512, each of
`rom_fill`, `rom_read`, `ram_read`, `rom_write` and `fpga_init` fails with
`InvalidArgument` and leaves the port untouched (zero bytes written), because
`tx` encodes the command before any write. -/
theorem C10_atomic_encode_failure (addr n v : Nat) (data : List Nat) (p : Port)
    (hn : ¬ 512 ∣ n) (hd : ¬ 512 ∣ data.length) :
    romFillOp addr n v p = (.error .invalidArgument, p) ∧
    romReadOp addr n p = (.error .invalidArgument, p) ∧
    ramReadOp addr n p = (.error .invalidArgument, p) ∧
    romWriteOp addr data p = (.error .invalidArgument, p) ∧
    fpgaInitOp n data p = (.error .invalidArgument, p) := by
  rw [Nat.dvd_iff_mod_eq_zero] at hn hd
  refine ⟨?_, ?_, ?_, ?_, ?_⟩ <;>
    simp [romFillOp, romReadOp, ramReadOp, romWriteOp, fpgaInitOp, tx,
      EdCommand.toBytes, EdCommand.sizeField, hn, hd]

/-- Witness for C10 at size 5 and a 1-byte buffer on an empty port. -/
theorem C10_atomic_encode_failure_witness :
    romFillOp 0 5 0 ⟨[], []⟩ = (.error .invalidArgument, ⟨[], []⟩) ∧
    romReadOp 0 5 ⟨[], []⟩ = (.error .invalidArgument, ⟨[], []⟩) ∧
    ramReadOp 0 5 ⟨[], []⟩ = (.error .invalidArgument, ⟨[], []⟩) ∧
    romWriteOp 0 [7] ⟨[], []⟩ = (.error .invalidArgument, ⟨[], []⟩) ∧
    fpgaInitOp 5 [7] ⟨[], []⟩ = (.error .invalidArgument, ⟨[], []⟩) :=
  C10_atomic_encode_failure 0 5 0 [7] ⟨[], []⟩ (by decide) (by decide)

/-- C8: `app_start` rejects a filename of 256 or more bytes before writing
anything; a shorter filename causes exactly two writes, the `AppStart` command
with argument 1 and a 256-byte zero-padded name buffer; no filename causes a
single write of the `AppStart` command with argument 0. -/
theorem C8_app_start (nm : List Nat) (p : Port) :
    (256 ≤ nm.length → appStartOp (some nm) p = (.error .invalidArgument, p)) ∧
    (nm.length < 256 →
      appStartOp (some nm) p = (.ok (), ⟨p.input, p.output ++
        [[99, 109, 100, 115, 0, 0, 0, 0, 0, 0, 0, 0, 0, 0, 0, 1],
         nm ++ List.replicate (256 - nm.length) 0]⟩)) ∧
    appStartOp none p = (.ok (), ⟨p.input, p.output ++
      [[99, 109, 100, 115, 0, 0, 0, 0, 0, 0, 0, 0, 0, 0, 0, 0]]⟩) := by
  obtain ⟨inp, out⟩ := p
  refine ⟨fun h => ?_, fun h => ?_, ?_⟩
  · simp [appStartOp, h]
  · have hbuf : writeSlice (List.replicate 256 0) 0 nm =
        nm ++ List.replicate (256 - nm.length) 0 := by
      rw [writeSlice, List.take_zero, List.nil_append, Nat.zero_add,
        List.drop_replicate]
    have htx : tx (.appStart true) (⟨inp, out⟩ : Port) = (.ok (),
        ⟨inp, out ++ [[99, 109, 100, 115, 0, 0, 0, 0, 0, 0, 0, 0, 0, 0, 0, 1]]⟩) := rfl
    simp only [appStartOp, hbuf]
    rw [if_neg (by omega : ¬ nm.length ≥ 256), htx]
    simp [writeAll]
  · have htx : tx (.appStart false) (⟨inp, out⟩ : Port) = (.ok (),
        ⟨inp, out ++ [[99, 109, 100, 115, 0, 0, 0, 0, 0, 0, 0, 0, 0, 0, 0, 0]]⟩) := rfl
    simp [appStartOp, htx]

/-- Witness for C8 at the 1-byte filename `[65]` on an empty port. -/
theorem C8_app_start_witness :
    appStartOp (some [65]) ⟨[], []⟩ = (.ok (), ⟨[],
      [[99, 109, 100, 115, 0, 0, 0, 0, 0, 0, 0, 0, 0, 0, 0, 1],
       [65] ++ List.replicate 255 0]⟩) := by
  have h := ((C8_app_start [65] ⟨[], []⟩).2.1 (by decide))
  exact h.trans (by rfl)

/-- C1: the claim says `unf_rx` fails with a protocol error on a type code
outside 1..6.  The code does not: `try_into` resolves to the infallible
blanket `TryFrom` impl derived from `From<u8>`, so a well-framed packet with
type code 7 decodes successfully into a `UnfRecvPacket` with
`DataTypeUnknown`. -/
theorem C1_unknown_type_code_accepted :
    unfRx ⟨[0x44, 0x4D, 0x41, 0x40, 0x07, 0x00, 0x00, 0x00,
            0x43, 0x4D, 0x50, 0x48], []⟩ =
      (.ok ⟨.unknown, []⟩, ⟨[], []⟩) := by rfl

/-- C2: the claim says the patched byte at 0x3F is `0x31` for
`save_type = Sram (0x30)` and `rtc_region = Rtc (0x01)`.  The code computes
`((st as u8) << 4) | rtc` on the already-shifted discriminant `0x30`, whose
`u8` shift truncates to 0, so the byte becomes `0x01`: on a 64-byte native
ROM, the patch writes `0x45, 0x44` at 0x3C, 0x3D but `0x01` at 0x3F. -/
theorem C2_save_type_nibble_lost :
    (loadRomPrep ([0x80, 0x37, 0x12, 0x40] ++ List.replicate 60 0) none
        (some .sram) (some .rtc)).map
      (fun r => (r.1.getD 0x3C 0, r.1.getD 0x3D 0, r.1.getD 0x3F 0, r.2)) =
      some (0x45, 0x44, 0x01, ROM_BASE_ADDR) := by decide

/-- C7: a ROM whose 4-byte header is none of the three recognized
signatures is not transformed, and the resolved base address is forced to
`ROM_BASE_ADDR_EMU`, overriding any caller-supplied base. -/
theorem C7_unrecognized_header_forces_emulator_base
    (b0 b1 b2 b3 : Nat) (rest : List Nat) (base : Option Nat)
    (h1 : beWord b0 b1 b2 b3 ≠ 0x80371240)
    (h2 : beWord b0 b1 b2 b3 ≠ 0x37804012)
    (h3 : beWord b0 b1 b2 b3 ≠ 0x40123780) :
    loadRomPrep (b0 :: b1 :: b2 :: b3 :: rest) base none none =
      some (b0 :: b1 :: b2 :: b3 :: rest, ROM_BASE_ADDR_EMU) := by
  simp [loadRomPrep, h1, h2, h3]

/-- Witness for C7: the all-zero header with a caller-supplied base address
`0x123` still resolves to the emulator base `0x10200000`. -/
theorem C7_unrecognized_header_forces_emulator_base_witness :
    loadRomPrep (0 :: 0 :: 0 :: 0 :: [9]) (some 0x123) none none =
      some (0 :: 0 :: 0 :: 0 :: [9], ROM_BASE_ADDR_EMU) :=
  C7_unrecognized_header_forces_emulator_base 0 0 0 0 [9] (some 0x123)
    (by decide) (by decide) (by decide)

/-- The even-length byte-swap loop succeeds and swaps each adjacent pair:
position `2k` receives the byte from `2k + 1` and vice versa. -/
theorem swapPairs_spec : ∀ l : List Nat, l.length % 2 = 0 →
    ∃ sw, swapPairs l = some sw ∧ sw.length = l.length ∧
      ∀ k, sw.getD (2 * k) 0 = l.getD (2 * k + 1) 0 ∧
        sw.getD (2 * k + 1) 0 = l.getD (2 * k) 0
  | [], _ => ⟨[], rfl, rfl, fun _ => ⟨rfl, rfl⟩⟩
  | [_], h => by simp at h
  | a :: b :: rest, h => by
    have h' : rest.length % 2 = 0 := by
      simp only [List.length_cons] at h; omega
    obtain ⟨sw, hsw, hlen, hget⟩ := swapPairs_spec rest h'
    refine ⟨b :: a :: sw, by simp [swapPairs, hsw], by simp [hlen], fun k => ?_⟩
    cases k with
    | zero => exact ⟨rfl, rfl⟩
    | succ j =>
      constructor
      · show (b :: a :: sw).getD (2 * (j + 1)) 0 =
          (a :: b :: rest).getD (2 * (j + 1) + 1) 0
        rw [show 2 * (j + 1) = 2 * j + 1 + 1 by ring]
        simp only [List.getD_cons_succ]
        exact (hget j).1
      · show (b :: a :: sw).getD (2 * (j + 1) + 1) 0 =
          (a :: b :: rest).getD (2 * (j + 1)) 0
        rw [show 2 * (j + 1) = 2 * j + 1 + 1 by ring]
        simp only [List.getD_cons_succ]
        exact (hget j).2

/-- C4 counterexample: the claim quantifies over any length ≥ 4, but on the
5-byte byte-swapped image `[0x37, 0x80, 0x40, 0x12, 0x00]` the swap loop's
final `swap(4, 5)` indexes out of bounds and panics (`none` in the model), so
no swapped buffer is produced at all. -/
theorem C4_odd_length_panics :
    loadRomPrep [0x37, 0x80, 0x40, 0x12, 0x00] none none none = none := by rfl

/-- C4 amended: for every ROM of even length whose first four bytes are
`0x37 0x80 0x40 0x12`, `load_rom` swaps every adjacent byte pair across the
whole buffer and keeps the caller-supplied (or default) base address. -/
theorem C4_byte_swapped_rom (rom : List Nat) (base : Option Nat)
    (hhdr : rom.take 4 = [0x37, 0x80, 0x40, 0x12]) (heven : rom.length % 2 = 0) :
    ∃ sw, loadRomPrep rom base none none = some (sw, base.getD ROM_BASE_ADDR) ∧
      sw.length = rom.length ∧
      ∀ k, sw.getD (2 * k) 0 = rom.getD (2 * k + 1) 0 ∧
        sw.getD (2 * k + 1) 0 = rom.getD (2 * k) 0 := by
  obtain ⟨sw, hsw, hlen, hget⟩ := swapPairs_spec rom heven
  refine ⟨sw, ?_, hlen, hget⟩
  cases rom with
  | nil => simp at hhdr
  | cons b0 t0 =>
    cases t0 with
    | nil => simp at hhdr
    | cons b1 t1 =>
      cases t1 with
      | nil => simp at hhdr
      | cons b2 t2 =>
        cases t2 with
        | nil => simp at hhdr
        | cons b3 rest =>
          simp only [List.take_succ_cons, List.take_zero, List.cons.injEq,
            and_true] at hhdr
          obtain ⟨rfl, rfl, rfl, rfl⟩ := hhdr
          simp [loadRomPrep, beWord, hsw]

/-- Witness for C4 on the 6-byte image `[0x37, 0x80, 0x40, 0x12, 0xAA, 0xBB]`
with no caller-supplied base address. -/
theorem C4_byte_swapped_rom_witness :
    ∃ sw, loadRomPrep [0x37, 0x80, 0x40, 0x12, 0xAA, 0xBB] none none none =
        some (sw, ROM_BASE_ADDR) ∧ sw.length = 6 ∧
      ∀ k, sw.getD (2 * k) 0 =
          ([0x37, 0x80, 0x40, 0x12, 0xAA, 0xBB] : List Nat).getD (2 * k + 1) 0 ∧
        sw.getD (2 * k + 1) 0 =
          ([0x37, 0x80, 0x40, 0x12, 0xAA, 0xBB] : List Nat).getD (2 * k) 0 :=
  C4_byte_swapped_rom [0x37, 0x80, 0x40, 0x12, 0xAA, 0xBB] none (by decide) (by decide)

/-- Writing `src` into the middle region of `pre ++ mid ++ post` (where `mid`
has the length of `src` and `pre` ends at the write offset) replaces `mid`. -/
theorem writeSlice_decompose (pre mid post src : List Nat) (i : Nat)
    (hi : pre.length = i) (hm : mid.length = src.length) :
    writeSlice (pre ++ mid ++ post) i src = pre ++ src ++ post := by
  have h1 : List.take i (pre ++ mid ++ post) = pre := by
    rw [List.append_assoc]
    exact List.take_left' hi
  have h2 : List.drop (i + src.length) (pre ++ mid ++ post) = post :=
    List.drop_left' (by simp [hi, hm])
  rw [writeSlice, h1, h2]

/-- The buffer built by `UnfSendPacket::new` is the magic, the type byte, the
3-byte big-endian size, `data_size` zero payload bytes, the 0xFF alignment
byte for odd sizes, and the footer. -/
theorem unfSendNew_layout (t : UnfDataType) (n : Nat) (h : n ≤ 0xFFFFFF) :
    unfSendNew t n = some
      ([68, 77, 65, 64, t.toByte, n / 65536 % 256, n / 256 % 256, n % 256] ++
        (List.replicate n 0 ++ (List.replicate (n % 2) 255 ++ [67, 77, 80, 72]))) := by
  have e0 : List.replicate (n + 12 + n % 2) (0 : Nat) =
      [] ++ List.replicate 8 0 ++
        (List.replicate n 0 ++ (List.replicate (n % 2) 0 ++ List.replicate 4 0)) := by
    rw [List.nil_append, ← List.replicate_add, ← List.replicate_add,
      ← List.replicate_add]
    congr 1
    omega
  have ehdr : ([UNF_MAGIC / 16777216 % 256, UNF_MAGIC / 65536 % 256,
      UNF_MAGIC / 256 % 256, UNF_MAGIC % 256, t.toByte,
      n / 65536 % 256, n / 256 % 256, n % 256] : List Nat) =
      [68, 77, 65, 64, t.toByte, n / 65536 % 256, n / 256 % 256, n % 256] := by
    norm_num [UNF_MAGIC]
  have eft : ([UNF_FOOTER / 16777216 % 256, UNF_FOOTER / 65536 % 256,
      UNF_FOOTER / 256 % 256, UNF_FOOTER % 256] : List Nat) = [67, 77, 80, 72] := by
    norm_num [UNF_FOOTER]
  simp only [unfSendNew]
  rw [if_neg (by omega)]
  rw [ehdr, eft]
  rw [e0, writeSlice_decompose [] (List.replicate 8 0)
    (List.replicate n 0 ++ (List.replicate (n % 2) 0 ++ List.replicate 4 0))
    [68, 77, 65, 64, t.toByte, n / 65536 % 256, n / 256 % 256, n % 256]
    0 rfl (by simp), List.nil_append]
  rw [show ([68, 77, 65, 64, t.toByte, n / 65536 % 256, n / 256 % 256, n % 256] ++
      (List.replicate n 0 ++ (List.replicate (n % 2) 0 ++ List.replicate 4 0)) : List Nat) =
    ([68, 77, 65, 64, t.toByte, n / 65536 % 256, n / 256 % 256, n % 256] ++
      List.replicate n 0) ++ List.replicate (n % 2) 0 ++ List.replicate 4 0 by
    simp only [List.append_assoc]]
  rw [writeSlice_decompose
    ([68, 77, 65, 64, t.toByte, n / 65536 % 256, n / 256 % 256, n % 256] ++
      List.replicate n 0)
    (List.replicate (n % 2) 0) (List.replicate 4 0) (List.replicate (n % 2) 255)
    (n + 8) (by simp only [List.length_append, List.length_replicate,
      List.length_cons, List.length_nil]; omega) (by simp)]
  rw [show (([68, 77, 65, 64, t.toByte, n / 65536 % 256, n / 256 % 256, n % 256] ++
      List.replicate n 0) ++ List.replicate (n % 2) 255 ++ List.replicate 4 0 : List Nat) =
    (([68, 77, 65, 64, t.toByte, n / 65536 % 256, n / 256 % 256, n % 256] ++
      List.replicate n 0) ++ List.replicate (n % 2) 255) ++ List.replicate 4 0 ++ [] by
    simp only [List.append_assoc, List.append_nil]]
  rw [writeSlice_decompose
    (([68, 77, 65, 64, t.toByte, n / 65536 % 256, n / 256 % 256, n % 256] ++
      List.replicate n 0) ++ List.replicate (n % 2) 255)
    (List.replicate 4 0) [] [67, 77, 80, 72]
    (n + 8 + n % 2) (by simp only [List.length_append, List.length_replicate,
      List.length_cons, List.length_nil]; omega) (by simp)]
  simp only [List.append_assoc, List.append_nil]

/-- C6: `UnfSendPacket::new(type, n)` fails with `InvalidArgument` iff
`n > 0x00FFFFFF`; otherwise the buffer is exactly
`4 + 1 + 3 + n + (n % 2) + 4` bytes: magic `"DMA@"`, the type byte, the
3-byte big-endian length, `n` payload bytes, a `0xFF` pad byte only for odd
`n`, and the footer `"CMPH"`. -/
theorem C6_send_packet_layout (t : UnfDataType) (n : Nat) :
    (0xFFFFFF < n → unfSendNew t n = none) ∧
    (n ≤ 0xFFFFFF →
      unfSendNew t n = some ([68, 77, 65, 64] ++ [t.toByte] ++
        [n / 65536 % 256, n / 256 % 256, n % 256] ++ List.replicate n 0 ++
        List.replicate (n % 2) 255 ++ [67, 77, 80, 72]) ∧
      ∀ bk, unfSendNew t n = some bk → bk.length = 4 + 1 + 3 + n + n % 2 + 4) := by
  constructor
  · intro h
    rw [unfSendNew, if_pos (by omega)]
  · intro h
    have hl := unfSendNew_layout t n h
    refine ⟨by simpa using hl, fun bk hbk => ?_⟩
    rw [hl] at hbk
    obtain rfl := Option.some.inj hbk.symm
    simp
    omega

/-- Witness for C6 at `n = 5` (odd): total length 18, byte 13 is the `0xFF`
pad, and the last four bytes are `"CMPH"`; the `n = 4` layout has length 16
and no pad byte. -/
theorem C6_send_packet_layout_witness :
    unfSendNew UnfDataType.text 5 =
      some [68, 77, 65, 64, 1, 0, 0, 5, 0, 0, 0, 0, 0, 255, 67, 77, 80, 72] ∧
    unfSendNew UnfDataType.text 4 =
      some [68, 77, 65, 64, 1, 0, 0, 4, 0, 0, 0, 0, 67, 77, 80, 72] := by
  have h5 := ((C6_send_packet_layout .text 5).2 (by decide)).1
  have h4 := ((C6_send_packet_layout .text 4).2 (by decide)).1
  exact ⟨h5.trans (by rfl), h4.trans (by rfl)⟩

/-- A zipped all-equal check over two lists holds iff the lists agree on
every index below the shorter length. -/
theorem zip_all_eq_iff (s d : List Nat) :
    ((s.zip d).all fun ab => ab.1 == ab.2) = true ↔
      ∀ i, i < min s.length d.length → s.getD i 0 = d.getD i 0 := by
  induction s generalizing d with
  | nil => simp
  | cons x s ih =>
    cases d with
    | nil => simp
    | cons y d' =>
      simp only [List.zip_cons_cons, List.all_cons, Bool.and_eq_true, beq_iff_eq, ih]
      constructor
      · rintro ⟨hxy, hrec⟩ i hi
        cases i with
        | zero => simpa using hxy
        | succ j =>
          simp only [List.getD_cons_succ]
          refine hrec j ?_
          simp only [List.length_cons] at hi
          omega
      · intro hall
        refine ⟨by simpa using hall 0 (by simp), fun j hj => ?_⟩
        have := hall (j + 1) (by simp only [List.length_cons]; omega)
        simpa only [List.getD_cons_succ] using this

/-- `is_ed_bootloader` holds iff `data` agrees with the 20-byte signature at
every signature index that is still inside `data` (offset `0x20 + i`): a
truncating prefix match, vacuously true when `data` ends at or before offset
0x20. -/
theorem isEdBootloader_iff (data : List Nat) :
    isEdBootloader data = true ↔
      ∀ i, i < 20 → 0x20 + i < data.length →
        data.getD (0x20 + i) 0 = edBootSig.getD i 0 := by
  rw [isEdBootloader, zip_all_eq_iff]
  have hslen : edBootSig.length = 20 := by rfl
  have hdlen : (data.drop 0x20).length = data.length - 0x20 := by simp
  have hd : ∀ i, (data.drop 0x20).getD i 0 = data.getD (0x20 + i) 0 := by
    intro i
    rw [List.getD_eq_getElem?_getD, List.getD_eq_getElem?_getD, List.getElem?_drop]
  constructor
  · intro hzip i h20 hlt
    have := hzip i (by rw [hslen, hdlen]; omega)
    rw [hd] at this
    exact this.symm
  · intro hall i hi
    rw [hslen, hdlen] at hi
    have := hall i (by omega) (by omega)
    rw [hd]
    exact this.symm

/-- C3 counterexample: for the 32-byte all-zero image, `is_ed_bootloader`'s
truncating zip is vacuously true, so `load_rom_force` issues the fill with
the all-ones value `0xFFFFFFFF` (argument bytes `255,255,255,255` in the one
chunk written) even though the image does not contain the exact 20-byte
signature at offset 0x20 — refuting the claim's "only if" direction. -/
theorem C3_fill_value_counterexample :
    loadRomForce (List.replicate 32 0) 0x10000000 ⟨[], []⟩ =
      (.error .invalidArgument,
        ⟨[], [[99, 109, 100, 99, 16, 0, 0, 0, 0, 0, 8, 8, 255, 255, 255, 255]]⟩) ∧
    ((List.replicate 32 0 : List Nat).drop 0x20).take 20 ≠ edBootSig :=
  ⟨by rfl, by decide⟩

/-- C3 amended: when the image is shorter than the CRC area, a fill of
`0x101000` bytes at the base address is issued as the first chunk before the
write, with the all-ones value exactly when `is_ed_bootloader` holds, i.e.
when the image agrees with the bootloader signature at every in-range byte
from offset 0x20 (vacuously for images ending at or before 0x20); when the
image is at least `0x101000` bytes no fill is issued (the trace is exactly
the plain write exchange). -/
theorem C3_fill_policy (data : List Nat) (base : Nat) (p : Port) :
    (data.length < 0x101000 →
      ∃ rest, (loadRomForce data base p).2.output = p.output ++
          ([99, 109, 100, 99] ++ be32 base ++ be32 (0x101000 / 512) ++
            be32 (if isEdBootloader data then 0xFFFFFFFF else 0)) :: rest ∧
        (isEdBootloader data = true ↔
          ∀ i, i < 20 → 0x20 + i < data.length →
            data.getD (0x20 + i) 0 = edBootSig.getD i 0)) ∧
    (0x101000 ≤ data.length → loadRomForce data base p = romWriteOp base data p) := by
  constructor
  · intro hlt
    have hiff := isEdBootloader_iff data
    have henc : EdCommand.toBytes (.romFill base CRC_AREA_SIZE
        (if isEdBootloader data then 0xFFFFFFFF else 0)) =
        .ok ([99, 109, 100, 99] ++ be32 base ++ be32 (0x101000 / 512) ++
          be32 (if isEdBootloader data then 0xFFFFFFFF else 0)) := by
      rw [EdCommand.toBytes, if_neg ?side]
      case side => norm_num [EdCommand.sizeField, CRC_AREA_SIZE]
      rfl
    have hfill : romFillOp base CRC_AREA_SIZE
        (if isEdBootloader data then 0xFFFFFFFF else 0) p = (.ok (),
          ⟨p.input, p.output ++ [[99, 109, 100, 99] ++ be32 base ++
            be32 (0x101000 / 512) ++
            be32 (if isEdBootloader data then 0xFFFFFFFF else 0)]⟩) := by
      rw [romFillOp, tx, henc]
      rfl
    rcases hw : EdCommand.toBytes (.romWrite base data.length) with e | wb
    · refine ⟨[], ?_, hiff⟩
      rw [loadRomForce, if_pos (show data.length < CRC_AREA_SIZE from hlt), hfill]
      simp [tx, hw, writeAll]
    · refine ⟨[wb, data], ?_, hiff⟩
      rw [loadRomForce, if_pos (show data.length < CRC_AREA_SIZE from hlt), hfill]
      simp [tx, hw, writeAll]
  · intro hge
    have hnot : ¬ data.length < CRC_AREA_SIZE := by
      simp only [CRC_AREA_SIZE]
      omega
    simp only [loadRomForce, if_neg hnot]
    rfl

/-- Witness for C3 on a 64-byte all-zero image (shorter than the CRC area,
not a bootloader): the first chunk written is the fill command with the
all-zero value. -/
theorem C3_fill_policy_witness :
    (loadRomForce (List.replicate 64 0) 0x10000000 ⟨[], []⟩).2.output.getD 0 [] =
      [99, 109, 100, 99] ++ be32 0x10000000 ++ be32 (0x101000 / 512) ++ be32 0 := by
  obtain ⟨rest, hout, -⟩ :=
    (C3_fill_policy (List.replicate 64 0) 0x10000000 ⟨[], []⟩).1 (by decide)
  have hb : isEdBootloader (List.replicate 64 0) = false := by decide
  rw [hout, hb]
  rfl

/-- Reading exactly the length of a stream's first segment yields that
segment and leaves the rest. -/
theorem readExact_append (l l' : List Nat) (out : List (List Nat)) :
    readExact l.length ⟨l ++ l', out⟩ = (.ok l, ⟨l', out⟩) := by
  rw [readExact, if_pos (by simp)]
  simp [List.take_left, List.drop_left]

/-- Reading a big-endian word from a stream starting with four bytes. -/
theorem readWordBe_cons (b0 b1 b2 b3 : Nat) (l : List Nat) (out : List (List Nat)) :
    readWordBe ⟨b0 :: b1 :: b2 :: b3 :: l, out⟩ =
      (.ok (beWord b0 b1 b2 b3), ⟨l, out⟩) := by
  have hre : readExact 4 (⟨b0 :: b1 :: b2 :: b3 :: l, out⟩ : Port) =
      (.ok [b0, b1, b2, b3], ⟨l, out⟩) := by
    rw [readExact, if_pos (by simp only [List.length_cons]; omega)]
    rfl
  rw [readWordBe, hre]
  rfl

/-- Decode's type-code conversion undoes encode's on every variant,
`DataTypeUnknown` (wire byte `0xFF`) included. -/
theorem ofByte_toByte (t : UnfDataType) : UnfDataType.ofByte t.toByte = t := by
  cases t <;> rfl

/-- C9: framed-packet round trip for even payloads: for every data type and
every even payload length up to `0xFFFFFE`, building a send packet, filling
its payload view, and decoding the resulting byte stream yields a
`RecvPacket` with the built type and the filled payload, consuming the whole
stream. -/
theorem C9_round_trip (t : UnfDataType) (pl : List Nat) (out : List (List Nat))
    (heven : pl.length % 2 = 0) (hle : pl.length ≤ 0xFFFFFE) :
    ∃ bk, unfSendNew t pl.length = some bk ∧
      unfRx ⟨unfFillData bk pl, out⟩ = (.ok ⟨t, pl⟩, ⟨[], out⟩) := by
  have hlay := unfSendNew_layout t pl.length (by omega)
  rw [heven] at hlay
  simp only [List.replicate_zero, List.nil_append] at hlay
  refine ⟨_, hlay, ?_⟩
  have hfd : unfFillData ([68, 77, 65, 64, t.toByte, pl.length / 65536 % 256,
      pl.length / 256 % 256, pl.length % 256] ++
      (List.replicate pl.length 0 ++ [67, 77, 80, 72])) pl =
      [68, 77, 65, 64, t.toByte, pl.length / 65536 % 256,
       pl.length / 256 % 256, pl.length % 256] ++ (pl ++ [67, 77, 80, 72]) := by
    rw [unfFillData, show ([68, 77, 65, 64, t.toByte, pl.length / 65536 % 256,
        pl.length / 256 % 256, pl.length % 256] ++
        (List.replicate pl.length 0 ++ [67, 77, 80, 72]) : List Nat) =
      [68, 77, 65, 64, t.toByte, pl.length / 65536 % 256,
        pl.length / 256 % 256, pl.length % 256] ++
        List.replicate pl.length 0 ++ [67, 77, 80, 72] by
      simp only [List.append_assoc]]
    rw [writeSlice_decompose _ _ _ pl 8 (by simp) (by simp)]
    simp only [List.append_assoc]
  rw [hfd]
  have htb : t.toByte < 256 := by cases t <;> decide
  have h24 : pl.length < 16777216 := by omega
  have s1 := readWordBe_cons 68 77 65 64 (t.toByte :: (pl.length / 65536 % 256) ::
    (pl.length / 256 % 256) :: (pl.length % 256) :: (pl ++ [67, 77, 80, 72])) out
  have s2 := readWordBe_cons t.toByte (pl.length / 65536 % 256)
    (pl.length / 256 % 256) (pl.length % 256) (pl ++ [67, 77, 80, 72]) out
  have s3 := readExact_append pl [67, 77, 80, 72] out
  have s4 := readWordBe_cons 67 77 80 72 [] out
  have hmagic : beWord 68 77 65 64 = UNF_MAGIC := by rfl
  have hfoot : beWord 67 77 80 72 = UNF_FOOTER := by rfl
  have hhead : beWord t.toByte (pl.length / 65536 % 256) (pl.length / 256 % 256)
      (pl.length % 256) = t.toByte * 16777216 + pl.length := by
    rw [beWord]
    omega
  have hdsize : (t.toByte * 16777216 + pl.length) % 16777216 = pl.length := by
    omega
  have hdtype : (t.toByte * 16777216 + pl.length) / 16777216 % 256 = t.toByte := by
    omega
  simp [unfRx, s1, s2, s3, s4, hmagic, hfoot, hhead, hdsize, hdtype,
    ofByte_toByte, UNF_MAGIC, UNF_FOOTER]

/-- Witness for C9 at type `Binary` and the 2-byte payload `[9, 7]`. -/
theorem C9_round_trip_witness :
    unfSendNew UnfDataType.binary 2 =
      some [68, 77, 65, 64, 2, 0, 0, 2, 0, 0, 67, 77, 80, 72] ∧
    unfRx ⟨unfFillData [68, 77, 65, 64, 2, 0, 0, 2, 0, 0, 67, 77, 80, 72] [9, 7], []⟩ =
      (.ok ⟨.binary, [9, 7]⟩, ⟨[], []⟩) := by
  obtain ⟨bk, h1, h2⟩ := C9_round_trip .binary [9, 7] [] (by decide) (by decide)
  have hlit : bk = [68, 77, 65, 64, 2, 0, 0, 2, 0, 0, 67, 77, 80, 72] :=
    Option.some.inj (h1.symm.trans (by rfl))
  rw [hlit] at h1 h2
  exact ⟨h1, h2⟩

end Everdrive
